import Mathlib

/-!
Verification development for the `terminal-noise` repository
(`src/terminal-noise.py`).

The Python program is shallowly embedded as follows:

* Python floats are modelled as rationals (`ℚ`).  Every arithmetic
  operation the claims talk about (`(v+1)/2`, `(v+1)*0.5`, linear color
  interpolation, `int(...)` truncation, sleep clamping) is exact on the
  inputs involved, so `ℚ` is a faithful model of the value-level
  behaviour the specification describes.  Note `0.5` is exactly `1/2`
  in binary floating point, so `(v+1)*0.5` is modelled as
  `(v+1) * (1/2)`.
* Python `int(x)` truncates toward zero; this is `pyTrunc` below.
* Python strings are Lean `String`s; `''.join` / `'\n'.join` are
  modelled by `pyJoin` below, and indexing `s[i]` (with Python's
  negative-index wrap-around) by `pyStrIndex`.  Out-of-range access
  raises `IndexError` in Python; `pyStrIndex` returns a default
  character there, and the theorems establish that the program only
  ever indexes in range, so the default is never exercised.
* The `opensimplex` package is an external dependency, not part of the
  repository.  Its documented contract (spec §4.1) is: a deterministic
  pure sampler keyed by the seed, returning values in `[-1, 1]`.  It is
  modelled as an abstract function `NoiseFn : ℤ → ℚ → ℚ → ℚ → ℚ`
  (seed, x, y, z ↦ sample); each `OpenSimplex(seed=s)` instance is the
  partial application to `s`, which makes "every process constructs its
  own instance from the same seed" literal in the model.
-/

/-- Python `int(x)` applied to a rational: truncation toward zero. -/
def pyTrunc (q : ℚ) : ℤ := if 0 ≤ q then ⌊q⌋ else ⌈q⌉

/-- Python `str.join`: `pyJoin sep [a, b, c] = a ++ sep ++ b ++ sep ++ c`,
and `pyJoin sep [] = ""`. -/
def pyJoin (sep : String) : List String → String
  | [] => ""
  | a :: as => as.foldl (fun acc s => acc ++ sep ++ s) a

/-- Python string indexing `s[i]`: negative indices count from the end;
out-of-range access (an `IndexError` in Python) is modelled by a default
character, and the proofs below show indexing stays in range. -/
def pyStrIndex (s : String) (i : ℤ) : Char :=
  if i < 0 then s.data.getD (s.data.length - (-i).toNat) ' '
  else s.data.getD i.toNat ' '

/-- ANSI 24-bit foreground color escape followed by one glyph:
Python's `f'\033[38;2;{r};{g};{b}m{char}'` (source lines 52 and 162). -/
def ansiColor (r g b : ℤ) (c : Char) : String :=
  "\x1b[38;2;" ++ toString r ++ ";" ++ toString g ++ ";" ++ toString b ++
    "m" ++ String.singleton c

/-- `CHARSETS['simple']` (source line 22). -/
def CHARSETS_simple : String := " .:-=+*#%@"

/-- `CHARSETS['growth']` (source line 23; brace, apostrophe and backtick
characters written with hexadecimal escapes). -/
def CHARSETS_growth : String :=
  " .\x27\x60,;:!|liI+~<>icv)(xr7t1\x7b?[fjz\x7dnsu*LJ#$%&0@"

/-- `CHARSETS['dense']` (source line 24; quote, apostrophe, backtick,
brace and backslash characters written with hexadecimal escapes). -/
def CHARSETS_dense : String :=
  " .\x27:\x60^\x22,:;Il!i><~+_-?][\x7d\x7b1)(|\x5c/tfjrxnuvczXYUJCLQ0OZmwqpdbkhao*#MW&8%B@$"

/-- `CHARSETS['blocks']` (source line 25). -/
def CHARSETS_blocks : String := " ░▒▓█"

/-- `CHARSETS['box']` (source line 26). -/
def CHARSETS_box : String := " ·│─┌┐└┘├┤┬┴┼═║╔╗╚╝╠╣╦╩╬"

/-- `CHARSETS.get(charset, CHARSETS['simple'])` (source line 75):
dictionary lookup that falls back to the `simple` set for unknown
names. -/
def CHARSETS_get (name : String) : String :=
  if name = "simple" then CHARSETS_simple
  else if name = "growth" then CHARSETS_growth
  else if name = "dense" then CHARSETS_dense
  else if name = "blocks" then CHARSETS_blocks
  else if name = "box" then CHARSETS_box
  else CHARSETS_simple

/-- An abstract deterministic noise sampler family: seed ↦ (x, y, z) ↦
sample.  `OpenSimplex(seed=s).noise3 x y z` is `noise3 s x y z`. -/
abbrev NoiseFn := ℤ → ℚ → ℚ → ℚ → ℚ

/-- The glyph index computed by `noise_to_char` (source lines 129-131)
and, in `(v+1)*0.5` form, by both render loops:
`int(((v+1)/2) * (len(charset)-1))`. -/
def glyph_index (N : ℕ) (v : ℚ) : ℤ :=
  pyTrunc ((v + 1) / 2 * ((N : ℚ) - 1))

/-- The state of a `TerminalNoise` object (source lines 70-86) together
with the fields the claims exercise.  `self.noise` is determined by
`seed` (the constructor builds `OpenSimplex(seed=seed)`), so it is not a
separate field; the ambient `NoiseFn` is applied to `seed` wherever the
code calls `self.noise.noise3`. -/
structure TerminalNoise where
  seed : ℤ
  charset : String
  scale : ℚ
  time : ℚ
  color_start : Option (ℤ × ℤ × ℤ)
  color_end : Option (ℤ × ℤ × ℤ)
  show_fps : Bool

/-- `TerminalNoise.get_terminal_size` (source lines 92-101).  The
environment query `os.get_terminal_size()` either succeeds with
`(columns, lines)` or raises `OSError`; it is modelled as an
`Option (ℕ × ℕ)` argument, `none` standing for the raised `OSError`. -/
def TerminalNoise.get_terminal_size (st : TerminalNoise)
    (env : Option (ℕ × ℕ)) : ℤ × ℤ :=
  match env with
  | some (columns, lines) =>
      ((columns : ℤ), (lines : ℤ) - (if st.show_fps then 2 else 1))
  | none => (80, 24)

/-- `TerminalNoise.interpolate_color` (source lines 116-124): `None`
unless both endpoint colors are present, otherwise per-channel
`int(start + (end - start) * t)`. -/
def TerminalNoise.interpolate_color (st : TerminalNoise) (t : ℚ) :
    Option (ℤ × ℤ × ℤ) :=
  match st.color_start, st.color_end with
  | some cs, some ce =>
      some (pyTrunc ((cs.1 : ℚ) + ((ce.1 : ℚ) - (cs.1 : ℚ)) * t),
            pyTrunc ((cs.2.1 : ℚ) + ((ce.2.1 : ℚ) - (cs.2.1 : ℚ)) * t),
            pyTrunc ((cs.2.2 : ℚ) + ((ce.2.2 : ℚ) - (cs.2.2 : ℚ)) * t))
  | _, _ => none

/-- `TerminalNoise.noise_to_char` (source lines 126-140).  When both
colors are present the Python code indexes the tuple returned by
`interpolate_color` (which is then necessarily not `None`; the `none`
fallback branch is unreachable and would be a `TypeError` in Python). -/
def TerminalNoise.noise_to_char (st : TerminalNoise) (noise_value : ℚ) :
    String :=
  let normalized := (noise_value + 1) / 2
  let idx := pyTrunc (normalized * ((st.charset.length : ℚ) - 1))
  let char := pyStrIndex st.charset idx
  match st.color_start, st.color_end with
  | some _, some _ =>
      match st.interpolate_color normalized with
      | some rgb => ansiColor rgb.1 rgb.2.1 rgb.2.2 char
      | none => String.singleton char
  | _, _ => String.singleton char

/-- `pyTrunc` agrees with the floor on nonnegative arguments. -/
theorem pyTrunc_eq_floor {q : ℚ} (h : 0 ≤ q) : pyTrunc q = ⌊q⌋ := by
  simp [pyTrunc, h]

/-- `pyTrunc` is the identity on (casts of) integers. -/
theorem pyTrunc_intCast (z : ℤ) : pyTrunc (z : ℚ) = z := by
  unfold pyTrunc
  by_cases h : (0 : ℚ) ≤ (z : ℚ) <;> simp [h]

/-- Bounds for the glyph index: any noise value in `[-1, 1]` and any
charset length `N ≥ 1` give an index in `[0, N-1]`. -/
theorem glyph_index_bounds (N : ℕ) (hN : 1 ≤ N) (v : ℚ)
    (h1 : -1 ≤ v) (h2 : v ≤ 1) :
    0 ≤ glyph_index N v ∧ glyph_index N v ≤ (N : ℤ) - 1 := by
  have hNq : (1 : ℚ) ≤ (N : ℚ) := by exact_mod_cast hN
  have ht0 : 0 ≤ (v + 1) / 2 := by linarith
  have ht1 : (v + 1) / 2 ≤ 1 := by linarith
  have hq0 : 0 ≤ (v + 1) / 2 * ((N : ℚ) - 1) :=
    mul_nonneg ht0 (by linarith)
  have hq1 : (v + 1) / 2 * ((N : ℚ) - 1) ≤ (N : ℚ) - 1 := by nlinarith
  unfold glyph_index
  rw [pyTrunc_eq_floor hq0]
  refine ⟨Int.floor_nonneg.mpr hq0, ?_⟩
  have : (((N : ℤ) - 1 : ℤ) : ℚ) = (N : ℚ) - 1 := by push_cast; ring
  calc ⌊(v + 1) / 2 * ((N : ℚ) - 1)⌋
      ≤ ⌊(((N : ℤ) - 1 : ℤ) : ℚ)⌋ := Int.floor_le_floor (by rw [this]; exact hq1)
    _ = (N : ℤ) - 1 := Int.floor_intCast _

/-- The `(v+1)*0.5` form of the normalization used in the render loops
equals the `(v+1)/2` form used in `noise_to_char`, so both compute the
same glyph index. -/
theorem render_loop_index_eq (N : ℕ) (v : ℚ) :
    pyTrunc ((v + 1) * (1/2) * ((N : ℚ) - 1)) = glyph_index N v := by
  unfold glyph_index
  have h : (v + 1) * (1/2 : ℚ) * ((N : ℚ) - 1) = (v + 1) / 2 * ((N : ℚ) - 1) := by
    ring
  rw [h]

/-- Claim C2: for every noise sample value `v ∈ [-1, 1]` and every
non-empty charset of length `N`, the computed index
`int(((v+1)/2) * (N-1))` lies in `[0, N-1]` — even at the extremes
`v = -1` and `v = 1` — and the render loops' `(v+1)*0.5` variant
computes the same index, so charset indexing never goes out of range. -/
theorem glyph_index_in_range (N : ℕ) (v : ℚ) (hN : 1 ≤ N)
    (h1 : -1 ≤ v) (h2 : v ≤ 1) :
    0 ≤ glyph_index N v ∧ glyph_index N v ≤ (N : ℤ) - 1 ∧
      pyTrunc ((v + 1) * (1/2) * ((N : ℚ) - 1)) = glyph_index N v := by
  obtain ⟨hl, hu⟩ := glyph_index_bounds N hN v h1 h2
  exact ⟨hl, hu, render_loop_index_eq N v⟩

/-- Witness for C2 at the extreme `v = 1` with the 10-glyph `simple`
charset: the index is exactly `9 = N - 1`. -/
theorem glyph_index_in_range_witness :
    1 ≤ 10 ∧
      (0 ≤ glyph_index 10 1 ∧ glyph_index 10 1 ≤ (10 : ℤ) - 1 ∧
        pyTrunc ((1 + 1) * (1/2) * ((10 : ℚ) - 1)) = glyph_index 10 1) :=
  ⟨by decide, glyph_index_in_range 10 1 (by decide) (by norm_num) (by norm_num)⟩

/-- Single color channel interpolation `int(s + (e - s) * t)`
(source lines 121-123, 48-50, 158-160). -/
theorem interp_channel_bounds (s e : ℤ) (hs0 : 0 ≤ s) (hs1 : s ≤ 255)
    (he0 : 0 ≤ e) (he1 : e ≤ 255) (t : ℚ) (ht0 : 0 ≤ t) (ht1 : t ≤ 1) :
    min s e ≤ pyTrunc ((s : ℚ) + ((e : ℚ) - (s : ℚ)) * t) ∧
      pyTrunc ((s : ℚ) + ((e : ℚ) - (s : ℚ)) * t) ≤ max s e ∧
      0 ≤ pyTrunc ((s : ℚ) + ((e : ℚ) - (s : ℚ)) * t) ∧
      pyTrunc ((s : ℚ) + ((e : ℚ) - (s : ℚ)) * t) ≤ 255 := by
  have hmin : ((min s e : ℤ) : ℚ) ≤ (s : ℚ) + ((e : ℚ) - (s : ℚ)) * t := by
    rcases le_total s e with h | h
    · rw [min_eq_left h]
      nlinarith [show (s : ℚ) ≤ (e : ℚ) by exact_mod_cast h]
    · rw [min_eq_right h]
      nlinarith [show (e : ℚ) ≤ (s : ℚ) by exact_mod_cast h]
  have hmax : (s : ℚ) + ((e : ℚ) - (s : ℚ)) * t ≤ ((max s e : ℤ) : ℚ) := by
    rcases le_total s e with h | h
    · rw [max_eq_right h]
      nlinarith [show (s : ℚ) ≤ (e : ℚ) by exact_mod_cast h]
    · rw [max_eq_left h]
      nlinarith [show (e : ℚ) ≤ (s : ℚ) by exact_mod_cast h]
  have h0 : (0 : ℚ) ≤ (s : ℚ) + ((e : ℚ) - (s : ℚ)) * t := by
    have : (0 : ℚ) ≤ ((min s e : ℤ) : ℚ) := by
      have : (0 : ℤ) ≤ min s e := le_min hs0 he0
      exact_mod_cast this
    linarith
  rw [pyTrunc_eq_floor h0]
  have hfl : min s e ≤ ⌊(s : ℚ) + ((e : ℚ) - (s : ℚ)) * t⌋ :=
    Int.le_floor.mpr hmin
  have hfu : ⌊(s : ℚ) + ((e : ℚ) - (s : ℚ)) * t⌋ ≤ max s e := by
    calc ⌊(s : ℚ) + ((e : ℚ) - (s : ℚ)) * t⌋
        ≤ ⌊((max s e : ℤ) : ℚ)⌋ := Int.floor_le_floor hmax
      _ = max s e := Int.floor_intCast _
  refine ⟨hfl, hfu, ?_, ?_⟩
  · exact le_trans (le_min hs0 he0) hfl
  · exact le_trans hfu (max_le hs1 he1)

/-- Claim C5: with both endpoint colors present and every channel in
`[0, 255]`, interpolation at `t = 0` returns exactly the start color, at
`t = 1` exactly the end color, and for every `t ∈ [0, 1]` each channel
`int(start + (end - start) * t)` lies between the two endpoint channel
values and inside `[0, 255]`. -/
theorem interpolate_color_endpoints_and_range (st : TerminalNoise)
    (sr sg sb er eg eb : ℤ)
    (hcs : st.color_start = some (sr, sg, sb))
    (hce : st.color_end = some (er, eg, eb))
    (hsr : 0 ≤ sr ∧ sr ≤ 255) (hsg : 0 ≤ sg ∧ sg ≤ 255)
    (hsb : 0 ≤ sb ∧ sb ≤ 255) (her : 0 ≤ er ∧ er ≤ 255)
    (heg : 0 ≤ eg ∧ eg ≤ 255) (heb : 0 ≤ eb ∧ eb ≤ 255) :
    st.interpolate_color 0 = some (sr, sg, sb) ∧
    st.interpolate_color 1 = some (er, eg, eb) ∧
    ∀ t : ℚ, 0 ≤ t → t ≤ 1 →
      ∃ r g b, st.interpolate_color t = some (r, g, b) ∧
        min sr er ≤ r ∧ r ≤ max sr er ∧ 0 ≤ r ∧ r ≤ 255 ∧
        min sg eg ≤ g ∧ g ≤ max sg eg ∧ 0 ≤ g ∧ g ≤ 255 ∧
        min sb eb ≤ b ∧ b ≤ max sb eb ∧ 0 ≤ b ∧ b ≤ 255 := by
  refine ⟨?_, ?_, ?_⟩
  · simp only [TerminalNoise.interpolate_color, hcs, hce]
    have hr : pyTrunc ((sr : ℚ) + ((er : ℚ) - (sr : ℚ)) * 0) = sr := by
      rw [mul_zero, add_zero, pyTrunc_intCast]
    have hg : pyTrunc ((sg : ℚ) + ((eg : ℚ) - (sg : ℚ)) * 0) = sg := by
      rw [mul_zero, add_zero, pyTrunc_intCast]
    have hb : pyTrunc ((sb : ℚ) + ((eb : ℚ) - (sb : ℚ)) * 0) = sb := by
      rw [mul_zero, add_zero, pyTrunc_intCast]
    rw [hr, hg, hb]
  · simp only [TerminalNoise.interpolate_color, hcs, hce]
    have hr : pyTrunc ((sr : ℚ) + ((er : ℚ) - (sr : ℚ)) * 1) = er := by
      rw [mul_one]
      have : (sr : ℚ) + ((er : ℚ) - (sr : ℚ)) = ((er : ℤ) : ℚ) := by ring
      rw [this, pyTrunc_intCast]
    have hg : pyTrunc ((sg : ℚ) + ((eg : ℚ) - (sg : ℚ)) * 1) = eg := by
      rw [mul_one]
      have : (sg : ℚ) + ((eg : ℚ) - (sg : ℚ)) = ((eg : ℤ) : ℚ) := by ring
      rw [this, pyTrunc_intCast]
    have hb : pyTrunc ((sb : ℚ) + ((eb : ℚ) - (sb : ℚ)) * 1) = eb := by
      rw [mul_one]
      have : (sb : ℚ) + ((eb : ℚ) - (sb : ℚ)) = ((eb : ℤ) : ℚ) := by ring
      rw [this, pyTrunc_intCast]
    rw [hr, hg, hb]
  · intro t ht0 ht1
    refine ⟨pyTrunc ((sr : ℚ) + ((er : ℚ) - (sr : ℚ)) * t),
      pyTrunc ((sg : ℚ) + ((eg : ℚ) - (sg : ℚ)) * t),
      pyTrunc ((sb : ℚ) + ((eb : ℚ) - (sb : ℚ)) * t),
      by simp only [TerminalNoise.interpolate_color, hcs, hce], ?_⟩
    obtain ⟨r1, r2, r3, r4⟩ :=
      interp_channel_bounds sr er hsr.1 hsr.2 her.1 her.2 t ht0 ht1
    obtain ⟨g1, g2, g3, g4⟩ :=
      interp_channel_bounds sg eg hsg.1 hsg.2 heg.1 heg.2 t ht0 ht1
    obtain ⟨b1, b2, b3, b4⟩ :=
      interp_channel_bounds sb eb hsb.1 hsb.2 heb.1 heb.2 t ht0 ht1
    exact ⟨r1, r2, r3, r4, g1, g2, g3, g4, b1, b2, b3, b4⟩

/-- Concrete `TerminalNoise` state used by witnesses: seed 42, `simple`
charset, scale 0.1, time 0, black→white gradient, FPS display off. -/
def stExample : TerminalNoise :=
  { seed := 42, charset := CHARSETS_simple, scale := 1/10, time := 0,
    color_start := some (0, 0, 0), color_end := some (255, 255, 255),
    show_fps := false }

/-- Witness for C5: the black→white gradient at `t = 0` returns exactly
black. -/
theorem interpolate_color_endpoints_and_range_witness :
    stExample.color_start = some (0, 0, 0) ∧
      stExample.interpolate_color 0 = some (0, 0, 0) :=
  ⟨rfl,
    (interpolate_color_endpoints_and_range stExample 0 0 0 255 255 255
      rfl rfl (by decide) (by decide) (by decide) (by decide) (by decide)
      (by decide)).1⟩

/-- The argument tuple handed to `_render_frame_worker`
(source line 32): `(width, height, scale, seed, charset, time_val,
color_start, color_end)`. -/
structure RenderArgs where
  width : ℕ
  height : ℕ
  scale : ℚ
  seed : ℤ
  charset : String
  time_val : ℚ
  color_start : Option (ℤ × ℤ × ℤ)
  color_end : Option (ℤ × ℤ × ℤ)

/-- `_render_frame_worker` (source lines 30-67).  The worker constructs
its own `OpenSimplex(seed=seed)` (modelled by applying the ambient
`NoiseFn` to `a.seed`), then renders either the colored frame (per-cell
inline color computation, single trailing `'\033[0m'` reset) or the
monochrome frame. -/
def _render_frame_worker (noise3 : NoiseFn) (a : RenderArgs) : String :=
  match a.color_start, a.color_end with
  | some cs, some ce =>
      pyJoin "\n" ((List.range a.height).map (fun y =>
        pyJoin "" ((List.range a.width).map (fun x =>
          let noise_value := noise3 a.seed ((x : ℚ) * a.scale)
            ((y : ℚ) * a.scale) a.time_val
          let normalized := (noise_value + 1) * (1/2)
          let idx := pyTrunc (normalized * ((a.charset.length : ℚ) - 1))
          let r := pyTrunc ((cs.1 : ℚ) + ((ce.1 : ℚ) - (cs.1 : ℚ)) * normalized)
          let g := pyTrunc ((cs.2.1 : ℚ) + ((ce.2.1 : ℚ) - (cs.2.1 : ℚ)) * normalized)
          let b := pyTrunc ((cs.2.2 : ℚ) + ((ce.2.2 : ℚ) - (cs.2.2 : ℚ)) * normalized)
          ansiColor r g b (pyStrIndex a.charset idx))))) ++ "\x1b[0m"
  | _, _ =>
      pyJoin "\n" ((List.range a.height).map (fun y =>
        pyJoin "" ((List.range a.width).map (fun x =>
          let noise_value := noise3 a.seed ((x : ℚ) * a.scale)
            ((y : ℚ) * a.scale) a.time_val
          let normalized := (noise_value + 1) * (1/2)
          let idx := pyTrunc (normalized * ((a.charset.length : ℚ) - 1))
          String.singleton (pyStrIndex a.charset idx)))))

/-- `TerminalNoise.render_frame` (source lines 142-177): queries the
terminal size, then runs the same two loops as the worker over
`self.noise` (the instance built from `self.seed`), `self.scale`,
`self.time` and `self.charset`. -/
def TerminalNoise.render_frame (noise3 : NoiseFn) (st : TerminalNoise)
    (env : Option (ℕ × ℕ)) : String :=
  let wh := st.get_terminal_size env
  match st.color_start, st.color_end with
  | some cs, some ce =>
      pyJoin "\n" ((List.range wh.2.toNat).map (fun y =>
        pyJoin "" ((List.range wh.1.toNat).map (fun x =>
          let noise_value := noise3 st.seed ((x : ℚ) * st.scale)
            ((y : ℚ) * st.scale) st.time
          let normalized := (noise_value + 1) * (1/2)
          let idx := pyTrunc (normalized * ((st.charset.length : ℚ) - 1))
          let r := pyTrunc ((cs.1 : ℚ) + ((ce.1 : ℚ) - (cs.1 : ℚ)) * normalized)
          let g := pyTrunc ((cs.2.1 : ℚ) + ((ce.2.1 : ℚ) - (cs.2.1 : ℚ)) * normalized)
          let b := pyTrunc ((cs.2.2 : ℚ) + ((ce.2.2 : ℚ) - (cs.2.2 : ℚ)) * normalized)
          ansiColor r g b (pyStrIndex st.charset idx))))) ++ "\x1b[0m"
  | _, _ =>
      pyJoin "\n" ((List.range wh.2.toNat).map (fun y =>
        pyJoin "" ((List.range wh.1.toNat).map (fun x =>
          let noise_value := noise3 st.seed ((x : ℚ) * st.scale)
            ((y : ℚ) * st.scale) st.time
          let normalized := (noise_value + 1) * (1/2)
          let idx := pyTrunc (normalized * ((st.charset.length : ℚ) - 1))
          String.singleton (pyStrIndex st.charset idx)))))

/-- The argument tuple `run_multiprocess` builds for a worker request at
time value `t` (source lines 250-251 and 280-281). -/
def TerminalNoise.workerArgs (st : TerminalNoise) (env : Option (ℕ × ℕ))
    (t : ℚ) : RenderArgs :=
  let wh := st.get_terminal_size env
  { width := wh.1.toNat, height := wh.2.toNat, scale := st.scale,
    seed := st.seed, charset := st.charset, time_val := t,
    color_start := st.color_start, color_end := st.color_end }

/-- Claim C1: frame rendering is deterministic.  Two worker invocations
on the same argument tuple — each constructing its own noise instance
from the tuple's seed, so possibly running in different processes whose
samplers agree pointwise — return byte-identical frame strings, and the
in-process `render_frame` agrees byte-for-byte with a worker handed the
matching tuple, which is what makes the workers interchangeable. -/
theorem render_frame_deterministic (noise3 noise3' : NoiseFn)
    (st : TerminalNoise) (env : Option (ℕ × ℕ))
    (hsame : ∀ s x y z, noise3 s x y z = noise3' s x y z) :
    _render_frame_worker noise3 (st.workerArgs env st.time) =
      _render_frame_worker noise3' (st.workerArgs env st.time) ∧
    TerminalNoise.render_frame noise3 st env =
      _render_frame_worker noise3 (st.workerArgs env st.time) := by
  have hfn : noise3 = noise3' := by
    funext s x y z
    exact hsame s x y z
  subst hfn
  refine ⟨rfl, ?_⟩
  unfold TerminalNoise.render_frame _render_frame_worker TerminalNoise.workerArgs
  cases st.color_start <;> cases st.color_end <;> rfl

/-- Fixed test sampler (stands in for a concrete OpenSimplex instance in
witnesses): always returns 0, which is inside the contract range. -/
def noiseZ : NoiseFn := fun _ _ _ _ => 0

/-- Witness for C1: at the example state the in-process renderer and the
worker produce the same bytes. -/
theorem render_frame_deterministic_witness :
    TerminalNoise.render_frame noiseZ stExample none =
      _render_frame_worker noiseZ (stExample.workerArgs none stExample.time) :=
  (render_frame_deterministic noiseZ noiseZ stExample none
    (fun _ _ _ _ => rfl)).2

/-- Counterexample for claim C6: with FPS display enabled and the
terminal size query failing (`OSError`), `get_terminal_size` returns
exactly `(80, 24)` — the code's `except OSError: return 80, 24` — and
not 80×24 minus the reserved rows (which would be `(80, 22)` here). -/
theorem get_terminal_size_fallback_counterexample :
    TerminalNoise.get_terminal_size
        { stExample with show_fps := true } none = (80, 24) ∧
      ((80 : ℤ), (24 : ℤ)) ≠ ((80 : ℤ), (24 : ℤ) - 2) := by
  exact ⟨rfl, by decide⟩

/-- Claim C6 as amended: when the terminal size query raises `OSError`
the function recovers locally and returns exactly the fixed fallback
`(80, 24)` with no reserved rows subtracted; when the query succeeds it
returns the terminal's columns and its lines minus 2 rows if FPS display
is enabled, otherwise minus 1 row. -/
theorem get_terminal_size_spec (st : TerminalNoise) :
    st.get_terminal_size none = (80, 24) ∧
    ∀ columns lines : ℕ,
      st.get_terminal_size (some (columns, lines)) =
        ((columns : ℤ), (lines : ℤ) - (if st.show_fps then 2 else 1)) := by
  exact ⟨rfl, fun _ _ => rfl⟩

/-- `frame_time = 1.0 / target_fps` (source lines 188 and 234). -/
def frame_interval (target_fps : ℚ) : ℚ := 1 / target_fps

/-- `time_step = 0.05` (source lines 189 and 235). -/
def time_step : ℚ := 1/20

/-- The sleep performed at the bottom of each loop iteration (source
lines 221-224 and 290-293): `sleep_time = frame_time - elapsed`, slept
only `if sleep_time > 0`, so the slept duration is
`max(0, frame_time - elapsed)`. -/
def sleep_after (frame_time elapsed : ℚ) : ℚ :=
  if frame_time - elapsed > 0 then frame_time - elapsed else 0

/-- One iteration of `run_single`'s loop as a state transformer (source
lines 197-224): render the frame at the current time, then advance
`self.time` by `time_step`.  The measured `elapsed` only influences the
sleep, never the rendered time values. -/
def run_single_iter (noise3 : NoiseFn) (st : TerminalNoise)
    (env : Option (ℕ × ℕ)) : String × TerminalNoise :=
  (TerminalNoise.render_frame noise3 st env,
    { st with time := st.time + time_step })

/-- Claim C9: each loop iteration sleeps `max(0, frame_interval -
elapsed)` with `frame_interval = 1/target_fps`; whenever
`elapsed ≥ frame_interval` no sleep occurs; and the iteration advances
the animation time by exactly one `time_step` regardless of `elapsed`,
so no time slice is ever skipped. -/
theorem pacing_sleep_clamped (target_fps elapsed : ℚ) :
    sleep_after (frame_interval target_fps) elapsed =
        max 0 (frame_interval target_fps - elapsed) ∧
      (frame_interval target_fps ≤ elapsed →
        sleep_after (frame_interval target_fps) elapsed = 0) ∧
      ∀ (noise3 : NoiseFn) (st : TerminalNoise) (env : Option (ℕ × ℕ)),
        (run_single_iter noise3 st env).2.time = st.time + time_step := by
  refine ⟨?_, ?_, fun _ _ _ => rfl⟩
  · unfold sleep_after
    rcases lt_or_le 0 (frame_interval target_fps - elapsed) with h | h
    · rw [if_pos h, max_eq_right h.le]
    · rw [if_neg (not_lt.mpr h), max_eq_left h]
  · intro h
    unfold sleep_after
    rw [if_neg]
    simp only [not_lt]
    linarith

/-- Witness for C9: at 120 FPS with a slow iteration (`elapsed = 1`
second ≥ 1/120) the loop does not sleep. -/
theorem pacing_sleep_clamped_witness :
    frame_interval 120 ≤ 1 ∧ sleep_after (frame_interval 120) 1 = 0 :=
  ⟨by norm_num [frame_interval],
    (pacing_sleep_clamped 120 1).2.1 (by norm_num [frame_interval])⟩

/-- State of `run_multiprocess`'s display loop (source lines 232-293):
the FIFO `futures` list is modelled by the time values of the in-flight
requests (by C1 each future's result is the deterministic frame for its
request's time value, so the time value characterizes the frame);
`time` is `self.time`; `displayed` records, in display order, the time
values of the frames written to the terminal; `clock` accumulates the
wall-clock effect of blocking on `futures[0].result()`. -/
structure SchedState where
  futures : List ℚ
  time : ℚ
  displayed : List ℚ
  clock : ℚ

/-- The warm-up phase (source lines 246-253): submit `buffer_size`
(`= cpu_count()`, also the worker-pool size) requests at time values
`self.time + i * time_step` for `i in range(buffer_size)` before any
frame is displayed. -/
def warmup (t0 : ℚ) (buffer_size : ℕ) : SchedState :=
  { futures := (List.range buffer_size).map (fun i : ℕ => t0 + (i : ℚ) * time_step),
    time := t0, displayed := [], clock := 0 }

/-- One steady-state iteration (source lines 257-293): block on
`futures[0].result()` (the `readyTime` of that request only delays the
wall clock, never reorders anything), pop it, display it, submit one new
request at `self.time + buffer_size * time_step`, and advance
`self.time` by `time_step`.  The empty-futures branch is unreachable for
`buffer_size ≥ 1`. -/
def sched_step (readyTime : ℚ → ℚ) (buffer_size : ℕ) (s : SchedState) :
    SchedState :=
  match s.futures with
  | [] => s
  | f :: rest =>
      { futures := rest ++ [s.time + (buffer_size : ℚ) * time_step],
        time := s.time + time_step,
        displayed := s.displayed ++ [f],
        clock := max s.clock (readyTime f) }

/-- `n` display-loop iterations after warm-up. -/
def sched_run (readyTime : ℚ → ℚ) (buffer_size : ℕ) (t0 : ℚ) :
    ℕ → SchedState
  | 0 => warmup t0 buffer_size
  | n + 1 => sched_step readyTime buffer_size (sched_run readyTime buffer_size t0 n)

/-- Closed form of the pipeline state at the top of iteration `n`: the
in-flight queue holds exactly the `W` time values
`t0+nΔ, …, t0+(n+W-1)Δ`, `self.time = t0+nΔ`, and the displayed time
values are `t0, t0+Δ, …, t0+(n-1)Δ` — for every completion-latency
assignment `readyTime`. -/
theorem sched_run_spec (readyTime : ℚ → ℚ) (W : ℕ) (hW : 1 ≤ W)
    (t0 : ℚ) (n : ℕ) :
    (sched_run readyTime W t0 n).futures =
        (List.range W).map (fun i : ℕ => t0 + ((n : ℚ) + (i : ℚ)) * time_step) ∧
      (sched_run readyTime W t0 n).time = t0 + (n : ℚ) * time_step ∧
      (sched_run readyTime W t0 n).displayed =
        (List.range n).map (fun i : ℕ => t0 + (i : ℚ) * time_step) := by
  induction n with
  | zero =>
      refine ⟨?_, by simp [sched_run, warmup], by simp [sched_run, warmup]⟩
      simp only [sched_run, warmup, Nat.cast_zero, zero_add]
  | succ n ih =>
      obtain ⟨hf, ht, hd⟩ := ih
      obtain ⟨k, rfl⟩ : ∃ k, W = k + 1 :=
        ⟨W - 1, (Nat.succ_pred_eq_of_pos hW).symm⟩
      have hcons : (sched_run readyTime (k + 1) t0 n).futures =
          (t0 + ((n : ℚ) + 0) * time_step) ::
            (List.range k).map
              (fun i : ℕ => t0 + ((n : ℚ) + ((i : ℚ) + 1)) * time_step) := by
        rw [hf, List.range_succ_eq_map, List.map_cons, List.map_map]
        simp only [Nat.cast_zero, Function.comp]
        congr 1
        apply List.map_congr_left
        intro i _
        simp only [Function.comp_apply]
        push_cast
        ring
      refine ⟨?_, ?_, ?_⟩
      · show (sched_step readyTime (k + 1) (sched_run readyTime (k + 1) t0 n)).futures = _
        rw [sched_step, hcons]
        simp only [ht]
        rw [List.range_succ, List.map_append, List.map_singleton]
        congr 1
        · apply List.map_congr_left
          intro i _
          push_cast
          ring
        · congr 1
          push_cast
          ring
      · show (sched_step readyTime (k + 1) (sched_run readyTime (k + 1) t0 n)).time = _
        rw [sched_step, hcons]
        simp only [ht]
        push_cast
        ring
      · show (sched_step readyTime (k + 1) (sched_run readyTime (k + 1) t0 n)).displayed = _
        rw [sched_step, hcons]
        simp only [hd]
        rw [List.range_succ, List.map_append, List.map_singleton]
        congr 2
        ring

/-- Element lookup in an arithmetic-progression list of time values. -/
theorem timeList_getD (t0 : ℚ) (n i : ℕ) (h : i < n) :
    ((List.range n).map (fun j : ℕ => t0 + (j : ℚ) * time_step)).getD i 0 =
      t0 + (i : ℚ) * time_step := by
  rw [List.getD_eq_getElem?_getD, List.getElem?_map, List.getElem?_range h]
  rfl

/-- Claim C3: in the multiprocess loop the displayed frames' time values
form the arithmetic progression `t0, t0+Δ, t0+2Δ, …` — strictly
increasing, consecutive frames differing by exactly `time_step` — for
every completion-latency assignment `readyTime`, because the display
loop always blocks on position 0 of its FIFO of futures. -/
theorem displayed_times_ordered (readyTime : ℚ → ℚ) (W : ℕ) (t0 : ℚ)
    (n : ℕ) (hW : 1 ≤ W) :
    (sched_run readyTime W t0 n).displayed =
        (List.range n).map (fun i : ℕ => t0 + (i : ℚ) * time_step) ∧
      ∀ i : ℕ, i + 1 < n →
        (sched_run readyTime W t0 n).displayed.getD (i + 1) 0 =
            (sched_run readyTime W t0 n).displayed.getD i 0 + time_step ∧
          (sched_run readyTime W t0 n).displayed.getD i 0 <
            (sched_run readyTime W t0 n).displayed.getD (i + 1) 0 := by
  obtain ⟨-, -, hd⟩ := sched_run_spec readyTime W hW t0 n
  refine ⟨hd, ?_⟩
  intro i hi
  rw [hd, timeList_getD t0 n i (by omega), timeList_getD t0 n (i + 1) hi]
  constructor
  · push_cast
    ring
  · have : (0 : ℚ) < time_step := by norm_num [time_step]
    push_cast
    nlinarith

/-- Witness for C3: two workers, three iterations, identity latency —
the displayed time values are exactly `0, 1/20, 1/10`. -/
theorem displayed_times_ordered_witness :
    1 ≤ 2 ∧ (sched_run (fun t => t) 2 0 3).displayed = [0, 1/20, 1/10] :=
  ⟨by decide, by
    have h := (displayed_times_ordered (fun t => t) 2 0 3 (by decide)).1
    rw [h]
    norm_num [List.range_succ, time_step]⟩

/-- Claim C4: the warm-up submits exactly `W` requests at time values
`t0, t0+Δ, …, t0+(W-1)Δ` before any frame is displayed; thereafter every
iteration consumes exactly one frame (the head of the FIFO) and submits
exactly one new request at the current maximum in-flight time value plus
`time_step`, so the in-flight queue holds exactly `W` requests at the
top of every iteration. -/
theorem lookahead_window_invariant (readyTime : ℚ → ℚ) (W : ℕ)
    (t0 : ℚ) (hW : 1 ≤ W) :
    ((warmup t0 W).futures =
        (List.range W).map (fun i : ℕ => t0 + (i : ℚ) * time_step) ∧
      (warmup t0 W).futures.length = W ∧ (warmup t0 W).displayed = []) ∧
    (∀ n, (sched_run readyTime W t0 n).futures.length = W) ∧
    (∀ n, (sched_run readyTime W t0 (n + 1)).displayed =
        (sched_run readyTime W t0 n).displayed ++
          [(sched_run readyTime W t0 n).futures.headD 0]) ∧
    (∀ n, (sched_run readyTime W t0 (n + 1)).futures =
        (sched_run readyTime W t0 n).futures.drop 1 ++
          [(sched_run readyTime W t0 n).futures.getLastD 0 + time_step]) := by
  have hstep : ∀ n, ∃ f rest,
      (sched_run readyTime W t0 n).futures = f :: rest ∧
      f = t0 + (n : ℚ) * time_step ∧
      (sched_run readyTime W t0 n).futures.getLastD 0 =
        t0 + ((n : ℚ) + (W : ℚ) - 1) * time_step := by
    intro n
    obtain ⟨hf, -, -⟩ := sched_run_spec readyTime W hW t0 n
    obtain ⟨k, rfl⟩ : ∃ k, W = k + 1 :=
      ⟨W - 1, (Nat.succ_pred_eq_of_pos hW).symm⟩
    rw [List.range_succ_eq_map, List.map_cons, List.map_map] at hf
    refine ⟨_, _, hf, by push_cast; ring, ?_⟩
    have hlast : (sched_run readyTime (k + 1) t0 n).futures.getLastD 0 =
        t0 + ((n : ℚ) + (k : ℚ)) * time_step := by
      obtain ⟨hf', -, -⟩ := sched_run_spec readyTime (k + 1) hW t0 n
      rw [hf', List.range_succ, List.map_append, List.map_singleton,
        List.getLastD_concat]
    rw [hlast]
    push_cast
    ring
  refine ⟨⟨rfl, by simp [warmup], rfl⟩, ?_, ?_, ?_⟩
  · intro n
    obtain ⟨hf, -, -⟩ := sched_run_spec readyTime W hW t0 n
    rw [hf, List.length_map, List.length_range]
  · intro n
    obtain ⟨f, rest, hc, hft, -⟩ := hstep n
    show (sched_step readyTime W (sched_run readyTime W t0 n)).displayed = _
    rw [sched_step, hc]
    simp only [List.headD_cons, hc]
  · intro n
    obtain ⟨f, rest, hc, hft, hlast⟩ := hstep n
    obtain ⟨-, ht, -⟩ := sched_run_spec readyTime W hW t0 n
    have hlast' : (f :: rest).getLastD 0 = t0 + ((n : ℚ) + (W : ℚ) - 1) * time_step := by
      rw [← hc]
      exact hlast
    show (sched_step readyTime W (sched_run readyTime W t0 n)).futures = _
    simp only [sched_step, hc, ht, hlast', List.drop_succ_cons, List.drop_zero]
    congr 2
    ring

/-- Witness for C4: with two workers the in-flight queue holds exactly
two requests at the top of iteration 3. -/
theorem lookahead_window_invariant_witness :
    1 ≤ 2 ∧ (sched_run (fun t => t) 2 0 3).futures.length = 2 :=
  ⟨by decide,
    (lookahead_window_invariant (fun t => t) 2 0 (by decide)).2.1 3⟩

/-- Characters of a left fold of `acc ++ sep ++ s` come from the
accumulator, the separator, or one of the joined strings. -/
theorem mem_foldl_join_data {c : Char} (sep : String) :
    ∀ (l : List String) (acc : String),
      c ∈ (l.foldl (fun acc s => acc ++ sep ++ s) acc).data →
        c ∈ acc.data ∨ c ∈ sep.data ∨ ∃ s ∈ l, c ∈ s.data := by
  intro l
  induction l with
  | nil => exact fun acc h => Or.inl h
  | cons a as ih =>
      intro acc h
      rcases ih (acc ++ sep ++ a) h with h' | h' | ⟨s, hs, hcs⟩
      · rw [String.data_append, String.data_append] at h'
        rcases List.mem_append.mp h' with h'' | h''
        · rcases List.mem_append.mp h'' with h3 | h3
          · exact Or.inl h3
          · exact Or.inr (Or.inl h3)
        · exact Or.inr (Or.inr ⟨a, List.mem_cons_self a as, h''⟩)
      · exact Or.inr (Or.inl h')
      · exact Or.inr (Or.inr ⟨s, List.mem_cons_of_mem a hs, hcs⟩)

/-- Characters of a `pyJoin` come from the separator or one of the
joined strings. -/
theorem mem_pyJoin_data {c : Char} (sep : String) (l : List String)
    (h : c ∈ (pyJoin sep l).data) :
    c ∈ sep.data ∨ ∃ s ∈ l, c ∈ s.data := by
  match l with
  | [] => exact absurd h (by simp [pyJoin])
  | a :: as =>
      rcases mem_foldl_join_data sep as a h with h' | h' | ⟨s, hs, hcs⟩
      · exact Or.inr ⟨a, List.mem_cons_self a as, h'⟩
      · exact Or.inl h'
      · exact Or.inr ⟨s, List.mem_cons_of_mem a hs, hcs⟩

/-- In-range Python string indexing returns a character of the string. -/
theorem pyStrIndex_mem (s : String) (i : ℤ) (h0 : 0 ≤ i)
    (hlt : i < (s.length : ℤ)) : pyStrIndex s i ∈ s.data := by
  unfold pyStrIndex
  rw [if_neg (not_lt.mpr h0)]
  have hlen : s.length = s.data.length := rfl
  have hl : i.toNat < s.data.length := by omega
  rw [List.getD_eq_getElem _ _ hl]
  exact List.getElem_mem hl

/-- Claim C10: colored output is produced exactly when both
`color_start` and `color_end` are present.  If either is `None`,
`interpolate_color` returns `None` and the rendered frame consists
solely of charset characters and newline separators — in particular no
escape character, hence no escape sequence, provided the charset itself
has none (all five built-in charsets are escape-free).  If both colors
are present, the frame contains the escape character (each glyph
carries a `38;2` color prefix and the frame ends with a style reset). -/
theorem color_mode_requires_both_endpoints (noise3 : NoiseFn)
    (a : RenderArgs)
    (hv : ∀ x y z, -1 ≤ noise3 a.seed x y z ∧ noise3 a.seed x y z ≤ 1)
    (hN : 1 ≤ a.charset.length) :
    ((a.color_start = none ∨ a.color_end = none) →
      (∀ st : TerminalNoise, st.color_start = a.color_start →
        st.color_end = a.color_end → ∀ t, st.interpolate_color t = none) ∧
      (∀ c ∈ (_render_frame_worker noise3 a).data,
        c ∈ a.charset.data ∨ c = '\n') ∧
      ('\x1b' ∉ a.charset.data →
        '\x1b' ∉ (_render_frame_worker noise3 a).data)) ∧
    (∀ cs ce, a.color_start = some cs → a.color_end = some ce →
      '\x1b' ∈ (_render_frame_worker noise3 a).data) := by
  constructor
  · intro hnone
    have hmono : _render_frame_worker noise3 a =
        pyJoin "\n" ((List.range a.height).map (fun y =>
          pyJoin "" ((List.range a.width).map (fun x =>
            String.singleton (pyStrIndex a.charset
              (pyTrunc ((noise3 a.seed ((x : ℚ) * a.scale)
                ((y : ℚ) * a.scale) a.time_val + 1) * (1/2) *
                  ((a.charset.length : ℚ) - 1)))))))) := by
      rcases hnone with h | h
      · cases hce : a.color_end <;>
          simp only [_render_frame_worker, h]
      · cases hcs : a.color_start <;>
          simp only [_render_frame_worker, h, hcs]
    have hmem : ∀ c ∈ (_render_frame_worker noise3 a).data,
        c ∈ a.charset.data ∨ c = '\n' := by
      intro c hc
      rw [hmono] at hc
      rcases mem_pyJoin_data "\n" _ hc with h | ⟨s, hs, hcs⟩
      · right
        simpa using h
      · left
        obtain ⟨y, -, rfl⟩ := List.mem_map.mp hs
        rcases mem_pyJoin_data "" _ hcs with h' | ⟨u, hu, hcu⟩
        · exact absurd h' (by simp)
        · obtain ⟨x, -, rfl⟩ := List.mem_map.mp hu
          rw [String.data_singleton, List.mem_singleton] at hcu
          subst hcu
          set v := noise3 a.seed ((x : ℚ) * a.scale) ((y : ℚ) * a.scale)
            a.time_val with hvdef
          obtain ⟨hv1, hv2⟩ := hv ((x : ℚ) * a.scale) ((y : ℚ) * a.scale)
            a.time_val
          rw [render_loop_index_eq]
          obtain ⟨hl, hu'⟩ :=
            glyph_index_bounds a.charset.length hN v hv1 hv2
          exact pyStrIndex_mem a.charset _ hl (by omega)
    refine ⟨?_, hmem, ?_⟩
    · intro st h1 h2 t
      unfold TerminalNoise.interpolate_color
      rcases hnone with h | h
      · rw [h1, h]
      · rw [h2, h]
        cases st.color_start <;> rfl
    · intro hesc hmem'
      rcases hmem _ hmem' with h | h
      · exact hesc h
      · exact absurd h (by decide)
  · intro cs ce h1 h2
    have hcol : _render_frame_worker noise3 a =
        pyJoin "\n" ((List.range a.height).map (fun y =>
          pyJoin "" ((List.range a.width).map (fun x =>
            let noise_value := noise3 a.seed ((x : ℚ) * a.scale)
              ((y : ℚ) * a.scale) a.time_val
            let normalized := (noise_value + 1) * (1/2)
            let idx := pyTrunc (normalized * ((a.charset.length : ℚ) - 1))
            let r := pyTrunc ((cs.1 : ℚ) + ((ce.1 : ℚ) - (cs.1 : ℚ)) * normalized)
            let g := pyTrunc ((cs.2.1 : ℚ) + ((ce.2.1 : ℚ) - (cs.2.1 : ℚ)) * normalized)
            let b := pyTrunc ((cs.2.2 : ℚ) + ((ce.2.2 : ℚ) - (cs.2.2 : ℚ)) * normalized)
            ansiColor r g b (pyStrIndex a.charset idx))))) ++ "\x1b[0m" := by
      simp only [_render_frame_worker, h1, h2]
    rw [hcol, String.data_append]
    apply List.mem_append.mpr
    right
    decide

/-- Monochrome worker arguments used by witnesses: no colors, 2×2 grid,
`simple` charset. -/
def argsMono : RenderArgs :=
  { width := 2, height := 2, scale := 1/10, seed := 42,
    charset := CHARSETS_simple, time_val := 0,
    color_start := none, color_end := none }

/-- Witness for C10: the monochrome frame contains no escape
character. -/
theorem color_mode_requires_both_endpoints_witness :
    '\x1b' ∉ argsMono.charset.data ∧
      '\x1b' ∉ (_render_frame_worker noiseZ argsMono).data :=
  ⟨by decide,
    ((color_mode_requires_both_endpoints noiseZ argsMono
        (fun _ _ _ => ⟨by norm_num [noiseZ], by norm_num [noiseZ]⟩)
        (by decide)).1 (Or.inl rfl)).2.2 (by decide)⟩

/-- Element lookup in a mapped range list. -/
theorem getD_map_range {α : Type} (f : ℕ → α) (n i : ℕ) (d : α)
    (h : i < n) : ((List.range n).map f).getD i d = f i := by
  rw [List.getD_eq_getElem?_getD, List.getElem?_map, List.getElem?_range h]
  rfl

/-- Follows the spec's words (§4.2), for comparison with the code: the
colorized expansion table of total length 256, where each of the `N`
source glyphs is repeated `256 / N` times with the remainder assigned to
the last glyph, and entry `k` is tinted by linear start→end
interpolation across the full 256-wide span.  No such table exists in
the source; this definition is the yardstick the code is measured
against. -/
def specExpandedTable (charset : String) (cs ce : ℤ × ℤ × ℤ) :
    List (Char × ℤ × ℤ × ℤ) :=
  (List.range 256).map (fun k =>
    (charset.data.getD
        (min (k / (256 / charset.length)) (charset.length - 1)) ' ',
     pyTrunc ((cs.1 : ℚ) + ((ce.1 : ℚ) - (cs.1 : ℚ)) * ((k : ℚ) / 255)),
     pyTrunc ((cs.2.1 : ℚ) + ((ce.2.1 : ℚ) - (cs.2.1 : ℚ)) * ((k : ℚ) / 255)),
     pyTrunc ((cs.2.2 : ℚ) + ((ce.2.2 : ℚ) - (cs.2.2 : ℚ)) * ((k : ℚ) / 255))))

/-- Follows the spec's words (§4.2): the per-cell hot path a 256-entry
table would induce — one normalize, one multiply by `256 - 1`, one
truncation, one table index, and no color arithmetic at sample time. -/
def specTableCell (charset : String) (cs ce : ℤ × ℤ × ℤ) (v : ℚ) :
    String :=
  let t := (v + 1) * (1/2)
  let e := (specExpandedTable charset cs ce).getD
    (pyTrunc (t * ((256 : ℚ) - 1))).toNat (' ', 0, 0, 0)
  ansiColor e.2.1 e.2.2.1 e.2.2.2 e.1

/-- Counterexample for claim C7: the spec-modelled 256-entry table does
have exactly 256 entries, but the code renders a different glyph than
the table would.  At noise value `0` with the 10-glyph `simple` charset
and a black→white gradient, `noise_to_char` (the code) picks glyph
`int(0.5 * 9) = 4`, the character `'='`, while the 256-entry expansion
table picks entry `int(0.5 * 255) = 127`, which holds source glyph
`min(127 / 25, 9) = 5`, the character `'+'`.  The code precomputes no
table and performs its color arithmetic inline per cell. -/
theorem colorized_expansion_table_counterexample :
    (specExpandedTable CHARSETS_simple (0, 0, 0) (255, 255, 255)).length
        = 256 ∧
      TerminalNoise.noise_to_char stExample 0 ≠
        specTableCell CHARSETS_simple (0, 0, 0) (255, 255, 255) 0 := by
  constructor
  · rw [specExpandedTable, List.length_map, List.length_range]
  · have hlen : CHARSETS_simple.length = 10 := by decide
    have hcode : TerminalNoise.noise_to_char stExample 0 =
        ansiColor 127 127 127 '=' := by
      have hidx : pyTrunc ((0 + 1 : ℚ) / 2 * ((CHARSETS_simple.length : ℚ) - 1))
          = 4 := by
        rw [hlen, pyTrunc_eq_floor (by norm_num)]
        norm_num
      have hch : pyTrunc ((0 : ℚ) + ((255 : ℚ) - (0 : ℚ)) * ((0 + 1) / 2))
          = 127 := by
        rw [pyTrunc_eq_floor (by norm_num)]
        norm_num
      have hch2 : pyTrunc ((255 : ℚ) / 2) = 127 := by
        rw [pyTrunc_eq_floor (by norm_num)]
        norm_num
      have hglyph : pyStrIndex CHARSETS_simple 4 = '=' := by decide
      simp only [TerminalNoise.noise_to_char, TerminalNoise.interpolate_color,
        stExample, Int.cast_zero, Int.cast_ofNat]
      rw [hidx]
      norm_num [hch]
      rw [hch2, hglyph]
    have hspec : specTableCell CHARSETS_simple (0, 0, 0) (255, 255, 255) 0 =
        ansiColor 127 127 127 '+' := by
      have hidx : pyTrunc ((0 + 1 : ℚ) * (1/2) * ((256 : ℚ) - 1)) = 127 := by
        rw [pyTrunc_eq_floor (by norm_num)]
        norm_num
      simp only [specTableCell, specExpandedTable]
      rw [hidx]
      rw [getD_map_range _ 256 (Int.toNat 127) _ (by decide)]
      have h127 : Int.toNat 127 = 127 := rfl
      rw [h127]
      have hglyph : CHARSETS_simple.data.getD
          (min ((127 : ℕ) / (256 / CHARSETS_simple.length))
            (CHARSETS_simple.length - 1)) ' ' = '+' := by decide
      rw [hglyph]
      have hch3 : pyTrunc (((0 : ℤ) : ℚ) +
          (((255 : ℤ) : ℚ) - ((0 : ℤ) : ℚ)) * (((127 : ℕ) : ℚ) / 255)) = 127 := by
        rw [pyTrunc_eq_floor (by positivity)]
        norm_num
      norm_num at hch3 ⊢
      rw [hch3]
    rw [hcode, hspec]
    decide

/-- Claim C7 as amended: in colorized mode the code precomputes no
expansion table.  Instead the per-cell hot path performs the color
arithmetic at sample time: `interpolate_color`'s linear formula
`int(start + (end - start) * t)` is exactly the inline per-channel
computation, and the rendered colored frame is, cell by cell, the ANSI
escape for those freshly interpolated channels followed by the glyph at
index `int(t * (N - 1))` of the N-glyph source charset, with a single
trailing style reset. -/
theorem colorized_color_math_at_sample_time (noise3 : NoiseFn)
    (a : RenderArgs) (cs ce : ℤ × ℤ × ℤ)
    (h1 : a.color_start = some cs) (h2 : a.color_end = some ce) :
    (∀ st : TerminalNoise, st.color_start = some cs →
      st.color_end = some ce → ∀ t : ℚ,
        st.interpolate_color t =
          some (pyTrunc ((cs.1 : ℚ) + ((ce.1 : ℚ) - (cs.1 : ℚ)) * t),
                pyTrunc ((cs.2.1 : ℚ) + ((ce.2.1 : ℚ) - (cs.2.1 : ℚ)) * t),
                pyTrunc ((cs.2.2 : ℚ) + ((ce.2.2 : ℚ) - (cs.2.2 : ℚ)) * t))) ∧
    _render_frame_worker noise3 a =
      pyJoin "\n" ((List.range a.height).map (fun y =>
        pyJoin "" ((List.range a.width).map (fun x =>
          let t := (noise3 a.seed ((x : ℚ) * a.scale) ((y : ℚ) * a.scale)
            a.time_val + 1) * (1/2)
          ansiColor (pyTrunc ((cs.1 : ℚ) + ((ce.1 : ℚ) - (cs.1 : ℚ)) * t))
            (pyTrunc ((cs.2.1 : ℚ) + ((ce.2.1 : ℚ) - (cs.2.1 : ℚ)) * t))
            (pyTrunc ((cs.2.2 : ℚ) + ((ce.2.2 : ℚ) - (cs.2.2 : ℚ)) * t))
            (pyStrIndex a.charset
              (pyTrunc (t * ((a.charset.length : ℚ) - 1)))))))) ++ "\x1b[0m" := by
  constructor
  · intro st hs he t
    unfold TerminalNoise.interpolate_color
    rw [hs, he]
  · simp only [_render_frame_worker, h1, h2]

/-- Colored worker arguments used by witnesses: 1×1 grid, `simple`
charset, black→white gradient. -/
def argsColor : RenderArgs :=
  { width := 1, height := 1, scale := 1/10, seed := 42,
    charset := CHARSETS_simple, time_val := 0,
    color_start := some (0, 0, 0), color_end := some (255, 255, 255) }

/-- Witness for the amended C7: the sample-time interpolation at
`t = 1/2` of the black→white gradient is grey `(127, 127, 127)`. -/
theorem colorized_color_math_at_sample_time_witness :
    stExample.interpolate_color (1/2) = some (127, 127, 127) := by
  have h := (colorized_color_math_at_sample_time noiseZ argsColor
    (0, 0, 0) (255, 255, 255) rfl rfl).1 stExample rfl rfl (1/2)
  rw [h]
  have hch : pyTrunc (((0 : ℤ) : ℚ) +
      (((255 : ℤ) : ℚ) - ((0 : ℤ) : ℚ)) * (1/2)) = 127 := by
    rw [pyTrunc_eq_floor (by positivity)]
    norm_num
  norm_num at hch ⊢
  rw [hch]

/-- ASCII whitespace accepted (and stripped) by Python's `int(s, 16)`. -/
def isPySpaceChar (c : Char) : Bool :=
  c = ' ' || c = '\t' || c = '\n' || c = '\r' || c = '\x0b' || c = '\x0c'

/-- ASCII hexadecimal digit. -/
def isHexDigitChar (c : Char) : Bool :=
  ('0' ≤ c && c ≤ '9') || ('a' ≤ c && c ≤ 'f') || ('A' ≤ c && c ≤ 'F')

/-- Value of an ASCII hexadecimal digit. -/
def hexDigitVal (c : Char) : ℤ :=
  if '0' ≤ c && c ≤ '9' then (c.toNat : ℤ) - ('0'.toNat : ℤ)
  else if 'a' ≤ c && c ≤ 'f' then (c.toNat : ℤ) - ('a'.toNat : ℤ) + 10
  else (c.toNat : ℤ) - ('A'.toNat : ℤ) + 10

/-- CPython's `int(s, 16)` restricted to the two-character slices
`hex_str[i:i+2]` that `parse_hex_color` feeds it: surrounding ASCII
whitespace is stripped, a single sign prefix is accepted, then at least
one hex digit is required.  For exactly two characters that means: two
hex digits; a sign or a whitespace character followed by one hex digit;
or one hex digit followed by a whitespace character.  Everything else —
including `'0x'` (prefix with no digits) and underscores — raises
`ValueError`, modelled as `Except.error`. -/
def pyIntBase16Two (c1 c2 : Char) : Except String ℤ :=
  if isHexDigitChar c1 && isHexDigitChar c2 then
    Except.ok (16 * hexDigitVal c1 + hexDigitVal c2)
  else if c1 = '+' && isHexDigitChar c2 then Except.ok (hexDigitVal c2)
  else if c1 = '-' && isHexDigitChar c2 then Except.ok (-(hexDigitVal c2))
  else if isPySpaceChar c1 && isHexDigitChar c2 then Except.ok (hexDigitVal c2)
  else if isHexDigitChar c1 && isPySpaceChar c2 then Except.ok (hexDigitVal c1)
  else Except.error "invalid literal for int() with base 16"

/-- `parse_hex_color` (source lines 301-306): `hex_str.lstrip('#')`
strips every leading `'#'`; a raised `ValueError` is modelled as
`Except.error`.  After the length check the three slices
`hex_str[0:2]`, `hex_str[2:4]`, `hex_str[4:6]` are parsed left to
right with `int(_, 16)`, the first failure propagating. -/
def parse_hex_color (s : String) : Except String (ℤ × ℤ × ℤ) :=
  let stripped := s.data.dropWhile (fun c => c = '#')
  if stripped.length = 6 then
    match pyIntBase16Two (stripped.getD 0 ' ') (stripped.getD 1 ' '),
        pyIntBase16Two (stripped.getD 2 ' ') (stripped.getD 3 ' '),
        pyIntBase16Two (stripped.getD 4 ' ') (stripped.getD 5 ' ') with
    | Except.ok r, Except.ok g, Except.ok b => Except.ok (r, g, b)
    | Except.error e, _, _ => Except.error e
    | _, Except.error e, _ => Except.error e
    | _, _, Except.error e => Except.error e
  else
    Except.error ("Invalid hex color: " ++ String.mk stripped ++
      ". Must be 6 hex digits.")

/-- The color-parsing phase of `main` (source lines 354-363): in color
mode both colors are parsed before the `TerminalNoise` object is
constructed and before any rendering; a `ValueError` from either parse
is caught, printed to stderr and turns into `sys.exit(1)` — modelled as
`Except.error` carrying the message. -/
def main_parse_colors (no_color : Bool) (color_start color_end : String) :
    Except String (Option (ℤ × ℤ × ℤ) × Option (ℤ × ℤ × ℤ)) :=
  if no_color then Except.ok (none, none)
  else
    match parse_hex_color color_start with
    | Except.error e => Except.error e
    | Except.ok c1 =>
        match parse_hex_color color_end with
        | Except.error e => Except.error e
        | Except.ok c2 => Except.ok (some c1, some c2)

/-- Counterexample for claim C8: `parse_hex_color` does not raise
exactly when the stripped argument is not 6 hexadecimal digits.  The
string `'+1+2+3'` contains no hex-digit sextet — after stripping `'#'`
it is still `'+1+2+3'`, none of whose even-indexed characters is a hex
digit — yet Python's `int('+1', 16)` accepts the sign prefix, so the
call succeeds and returns `(1, 2, 3)` instead of raising `ValueError`. -/
theorem parse_hex_color_counterexample :
    parse_hex_color "+1+2+3" = Except.ok (1, 2, 3) ∧
      (("+1+2+3".data.dropWhile (fun c => c = '#')).all isHexDigitChar
        = false) := by
  constructor
  · rfl
  · rfl

/-- Claim C8 as amended: configuration errors still precede the loop —
`main` parses both colors, and any `ValueError`, before constructing the
renderer or rendering anything, exiting with code 1 — but the exact
failure condition of `parse_hex_color` is: it raises whenever the
argument, after stripping all leading `'#'` characters, does not have
length 6, and it succeeds with the three parsed channel bytes whenever
the stripped string is exactly 6 hexadecimal digits.  (Between those two
regimes, Python's `int(_, 16)` tolerance for sign and whitespace
characters in the 2-character slices decides, per `pyIntBase16Two`.) -/
theorem config_errors_precede_loop :
    (∀ s : String, (s.data.dropWhile (fun c => c = '#')).length ≠ 6 →
      parse_hex_color s = Except.error ("Invalid hex color: " ++
        String.mk (s.data.dropWhile (fun c => c = '#')) ++
        ". Must be 6 hex digits.")) ∧
    (∀ (s : String) (c1 c2 c3 c4 c5 c6 : Char),
      s.data.dropWhile (fun c => c = '#') = [c1, c2, c3, c4, c5, c6] →
      isHexDigitChar c1 → isHexDigitChar c2 → isHexDigitChar c3 →
      isHexDigitChar c4 → isHexDigitChar c5 → isHexDigitChar c6 →
      parse_hex_color s = Except.ok
        (16 * hexDigitVal c1 + hexDigitVal c2,
         16 * hexDigitVal c3 + hexDigitVal c4,
         16 * hexDigitVal c5 + hexDigitVal c6)) ∧
    (∀ (color_start color_end : String) (e : String),
      parse_hex_color color_start = Except.error e →
      main_parse_colors false color_start color_end = Except.error e) ∧
    (∀ (color_start color_end : String) (c : ℤ × ℤ × ℤ) (e : String),
      parse_hex_color color_start = Except.ok c →
      parse_hex_color color_end = Except.error e →
      main_parse_colors false color_start color_end = Except.error e) := by
  refine ⟨?_, ?_, ?_, ?_⟩
  · intro s h
    rw [parse_hex_color]
    simp only [if_neg h]
  · intro s c1 c2 c3 c4 c5 c6 hl h1 h2 h3 h4 h5 h6
    rw [parse_hex_color]
    simp only [hl, List.length_cons, List.length_nil, if_pos rfl,
      List.getD_cons_zero, List.getD_cons_succ]
    simp [pyIntBase16Two, h1, h2, h3, h4, h5, h6]
  · intro cs ce e h
    rw [main_parse_colors, if_neg (by simp), h]
  · intro cs ce c e h1 h2
    rw [main_parse_colors, if_neg (by simp), h1, h2]

/-- Witness for the amended C8: the default gradient start `'#00CED1'`
parses to `(0, 206, 209)`, and a 5-character input is rejected. -/
theorem config_errors_precede_loop_witness :
    parse_hex_color "#00CED1" = Except.ok (0, 206, 209) ∧
      parse_hex_color "12345" = Except.error
        "Invalid hex color: 12345. Must be 6 hex digits." := by
  constructor
  · have h := config_errors_precede_loop.2.1 "#00CED1" '0' '0' 'C' 'E' 'D' '1'
      (by rfl) (by rfl) (by rfl) (by rfl) (by rfl) (by rfl) (by rfl)
    rw [h]
    rfl
  · have h := config_errors_precede_loop.1 "12345" (by decide)
    rw [h]
    rfl
